import Mathlib

/-!
# Verification of the `rack` ZFS snapshot engine (`src/zfs.rs`)

A shallow embedding of the snapshot-management core of the `rack` repository:
inventory building (`Zfs::new` / `SnapBuilder`), snapshot index allocation
(`Zfs::next_under`), snapshot naming (`Zfs::snap_name`, `Zfs::take_snapshot`),
Hanoi-style pruning (`Zfs::prune`, `PRUNE_KEEP`), and replication
(`Zfs::clone_one`, `Zfs::do_clone`).

Strings are modelled as `List Char` (called `Str` here) so that every
definition is executable and decidable on concrete inputs.  External
subprocess effects (printing, running `zfs` commands, spawning the
send/pv/receive pipeline) are modelled as explicit event traces; the exit
status of external commands is supplied by oracle functions where the control
flow of the source depends on it.
-/

set_option linter.unusedVariables false

namespace Rack

/-- Strings, modelled as lists of characters. -/
abbrev Str := List Char

/-- Embeds `struct Filesystem` from `zfs.rs`: a volume name, its snapshot names in
listing (creation) order, and its mountpoint. -/
structure Filesystem where
  name : Str
  snaps : List Str
  mount : Str
deriving DecidableEq

/-- Embeds `struct Zfs` from `zfs.rs`.  The field `prefix` of the source is called
`pfx` here (`prefix` is a Lean keyword); the compiled regex field `snap_re` is
represented by the function `snap_number` below, which is determined by the
prefix. -/
structure Zfs where
  pfx : Str
  filesystems : List Filesystem
deriving DecidableEq

/-- Strip a literal leading pattern from a string; `none` if it is not a
prefix match.  Used to embed the anchored literal part of the snapshot
regular expression `^{prefix}(\d{4})-([-\d]+)$`. -/
def stripLit : Str → Str → Option Str
  | [], s => some s
  | _ :: _, [] => none
  | p :: ps, c :: cs => if p = c then stripLit ps cs else none

/-- Numeric value of a decimal digit character. -/
def digitVal (c : Char) : Nat := c.toNat - '0'.toNat

/-- Embeds `Zfs::snap_number` (and the capture logic of `snap_re`): a snapshot name
matches the pattern `^{prefix}(\d{4})-([-\d]+)$` and the four captured digits
are parsed as the snapshot index.  The regular expression is anchored on a
literal prefix, so the match position is unique and the embedding below is an
exact translation: after the prefix there must be exactly four digits, a
`'-'`, and a non-empty tail of digits and dashes. -/
def snap_number (pfx : Str) (text : Str) : Option Nat :=
  match stripLit pfx text with
  | none => none
  | some rest =>
    match rest with
    | a :: b :: c :: d :: '-' :: tail =>
      if a.isDigit && b.isDigit && c.isDigit && d.isDigit &&
          !tail.isEmpty && tail.all (fun ch => ch.isDigit || ch == '-') then
        some (((digitVal a * 10 + digitVal b) * 10 + digitVal c) * 10 + digitVal d)
      else none
    | _ => none

/-- Embeds `u32::count_ones`: population count of the binary representation.
Written with an explicit fuel argument (the number itself suffices) so that
the definition is structural and evaluates by kernel reduction. -/
def countOnesGo : Nat → Nat → Nat
  | _, 0 => 0
  | 0, _ + 1 => 0
  | fuel + 1, n + 1 => (n + 1) % 2 + countOnesGo fuel ((n + 1) / 2)

/-- Embeds `num.count_ones()` from the prune loop. -/
def count_ones (n : Nat) : Nat := countOnesGo n n

/-- Embeds `const PRUNE_KEEP: usize = 10;` — the number of recent snapshots to keep. -/
def PRUNE_KEEP : Nat := 10

/-- The pairing stage of `Zfs::prune`: keep the snapshots matching the
naming pattern, paired with their decoded number, then reverse so the list
runs newest-first (`snaps` itself is oldest-first). -/
def prune_pairs (pfx : Str) (snaps : List Str) : List (Str × Nat) :=
  (snaps.filterMap (fun sn => (snap_number pfx sn).map (fun num => (sn, num)))).reverse

/-- Embeds `BTreeSet::insert` on the set `pops` of already-seen population counts. -/
def insertPop (b : Nat) (pops : List Nat) : List Nat :=
  if b ∈ pops then pops else b :: pops

/-- The scanning loop of `Zfs::prune` over the enumerated newest-first list:
the first `PRUNE_KEEP` (`keep`) entries are skipped entirely (`continue`,
before the population count is computed or recorded); afterwards a snapshot
whose index' population count is already in `pops` is pushed onto the prune
list as `fs_name@snap`, and every candidate's population count is inserted
into `pops`. -/
def prune_loop (fs_name : Str) (keep index : Nat) (pops : List Nat) :
    List (Str × Nat) → List Str
  | [] => []
  | (name, num) :: rest =>
    if index < keep then
      prune_loop fs_name keep (index + 1) pops rest
    else
      if count_ones num ∈ pops then
        (fs_name ++ '@' :: name) ::
          prune_loop fs_name keep (index + 1) (insertPop (count_ones num) pops) rest
      else
        prune_loop fs_name keep (index + 1) (insertPop (count_ones num) pops) rest

/-- The deletion list computed by `Zfs::prune` (before the destroy phase):
the scan output, reversed so that the result runs oldest-first.  The `keep`
argument is `PRUNE_KEEP` in the source; it is kept as a parameter so the
algorithm can also be examined at other window sizes. -/
def prune_candidates (pfx fs_name : Str) (keep : Nat) (snaps : List Str) : List Str :=
  (prune_loop fs_name keep 0 [] (prune_pairs pfx snaps)).reverse

/-- An external-effect event: a line printed to stdout, or an external
command invocation (program and argument list). -/
inductive PEv where
  | print (line : Str)
  | run (prog : Str) (args : List Str)
deriving DecidableEq

/-- Embeds `Zfs::prune`: find the filesystem by name (error if absent), compute the
deletion candidates with the fixed window `PRUNE_KEEP`, then for each
candidate (oldest first) print the action — prefixed with `"would "` when
`really` is false — and, only when `really` is true, run
`zfs destroy <fs@snap>`. -/
def prune (z : Zfs) (fs_name : Str) (really : Bool) : Except Str (List PEv) :=
  match z.filesystems.find? (fun fs => fs.name == fs_name) with
  | none => .error ("Volume not found in zfs ".data ++ fs_name)
  | some fs =>
    let to_prune := prune_candidates z.pfx fs_name PRUNE_KEEP fs.snaps
    .ok (to_prune.flatMap (fun prune_name =>
      PEv.print ((if really then [] else "would ".data) ++ "prune: ".data ++ prune_name) ::
        (if really then [PEv.run "zfs".data ["destroy".data, prune_name]] else [])))

/-! ## Spec-side ("claim") definitions for the retention policy

These definitions follow the wording of the specification, to be compared
with the source-derived `prune_candidates` above. -/

/-- Claim wording: the candidate region — only pattern-matching snapshots are
considered, scanned newest-to-oldest, with the newest `keep` of them
unconditionally retained (removed from the candidate region). -/
def claimCands (pfx : Str) (keep : Nat) (snaps : List Str) : List (Str × Nat) :=
  ((snaps.filterMap (fun sn => (snap_number pfx sn).map (fun num => (sn, num)))).reverse).drop keep

/-- Claim wording: scanning newest-to-oldest, a candidate is pruned exactly
when the population count of its index has already been seen at an earlier
(newer) position of the candidate region. -/
def popSeenBefore (cands : List (Str × Nat)) (i : Nat) : Bool :=
  (List.range i).any
    (fun j => decide (count_ones (cands.getD j ([], 0)).2 = count_ones (cands.getD i ([], 0)).2))

/-- Claim wording: the pruned candidates, in newest-to-oldest scan order,
rendered as `fs_name@snap`. -/
def claimPruned (fs_name : Str) (cands : List (Str × Nat)) : List Str :=
  ((List.range cands.length).filter (popSeenBefore cands)).map
    (fun i => fs_name ++ '@' :: (cands.getD i ([], 0)).1)

/-- Proof helper: the candidate scan of `prune_loop` once the keep-window has
been passed (no index bookkeeping). -/
def scanP (fs_name : Str) (pops : List Nat) : List (Str × Nat) → List Str
  | [] => []
  | (name, num) :: rest =>
    if count_ones num ∈ pops then
      (fs_name ++ '@' :: name) :: scanP fs_name (insertPop (count_ones num) pops) rest
    else
      scanP fs_name (insertPop (count_ones num) pops) rest

/-- Proof helper: generalisation of `popSeenBefore` to a non-empty initial
seen-set. -/
def seenCond (pops : List Nat) (cands : List (Str × Nat)) (i : Nat) : Bool :=
  decide (count_ones (cands.getD i ([], 0)).2 ∈ pops) || popSeenBefore cands i

/-- Boolean literal-leading-pattern test on strings; used to embed the
subtree regular expression `^{under}(/.*)?$` of `Zfs::filtered`, which (being
a literal anchored at both ends around an optional `/`-headed tail) holds iff
the name equals `under` or begins with `under` followed by `'/'`. -/
def hasLit : Str → Str → Bool
  | [], _ => true
  | _ :: _, [] => false
  | p :: ps, c :: cs => p == c && hasLit ps cs

/-- Embeds `Zfs::filtered`: the filesystems whose name matches `^{under}(/.*)?$`,
i.e. the subtree rooted at `under`. -/
def filtered (z : Zfs) (under : Str) : List Filesystem :=
  z.filesystems.filter (fun x => x.name == under || hasLit (under ++ ['/']) x.name)

/-- The loop body of `Zfs::next_under`: if the snapshot matches the pattern
and its decoded number plus one exceeds the running `next`, bump `next`. -/
def next_step (pfx : Str) (next : Nat) (snap : Str) : Nat :=
  match snap_number pfx snap with
  | some num => if num + 1 > next then num + 1 else next
  | none => next

/-- Embeds `Zfs::next_under`: fold the bump step over every snapshot of every
filesystem in the subtree, starting from 0. -/
def next_under (z : Zfs) (under : Str) : Nat :=
  (filtered z under).foldl (fun next fs => fs.snaps.foldl (next_step z.pfx) next) 0

/-- All decoded indices of pattern-matching snapshots in the subtree
(the set `next_under` ranges over). -/
def subtreeIndices (z : Zfs) (under : Str) : List Nat :=
  (filtered z under).flatMap (fun fs => fs.snaps.filterMap (snap_number z.pfx))

/-- Proof helper: the bump step of `next_under` on an already-decoded
index. -/
def bumpIdx (next num : Nat) : Nat := if num + 1 > next then num + 1 else next

/-- One `zfs send | pv | zfs receive` range transfer as requested by
`Zfs::clone_one`: source and destination filesystem names, the optional
incremental base snapshot (`-I @ssnap`; `none` means a full stream) and the
target snapshot. -/
structure Xfer where
  src : Str
  dst : Str
  ssnap : Option Str
  dsnap : Str
deriving DecidableEq

/-- Embeds `Zfs::clone_one`, with the two external effects abstracted as oracles:
`est x` is the byte count reported by the dry-run size estimate for range `x`
(`none` when the `zfs send -nP` invocation itself fails), and `exec x` is
whether the actual `do_clone` pipeline for range `x` succeeds.  The result is
the list of `do_clone` transfers that were started, in order, paired with
`true` for `Ok(())` and `false` for an `Err`/failed run.  The control flow
mirrors the source: with a last destination snapshot present, fail if it is
not in the source history, succeed with no transfer if it equals the last
source snapshot, otherwise run the single incremental transfer; with an
empty destination, run a full transfer from the oldest source snapshot and
only on its success the incremental transfer from there to the newest. -/
def clone_one (est : Xfer → Option Nat) (exec : Xfer → Bool)
    (source dest : Filesystem) : List Xfer × Bool :=
  match dest.snaps.getLast? with
  | some ssnap =>
    if !(source.snaps.contains ssnap) then ([], false)
    else
      match source.snaps.getLast? with
      | none => ([], false)
      | some dsnap =>
        if dsnap == ssnap then ([], true)
        else
          match est ⟨source.name, dest.name, some ssnap, dsnap⟩ with
          | none => ([], false)
          | some _ =>
            ([⟨source.name, dest.name, some ssnap, dsnap⟩],
              exec ⟨source.name, dest.name, some ssnap, dsnap⟩)
  | none =>
    match source.snaps.head? with
    | none => ([], false)
    | some dsnap =>
      match est ⟨source.name, dest.name, none, dsnap⟩ with
      | none => ([], false)
      | some _ =>
        if exec ⟨source.name, dest.name, none, dsnap⟩ then
          match source.snaps.getLast? with
          | none => ([⟨source.name, dest.name, none, dsnap⟩], false)
          | some dlast =>
            match est ⟨source.name, dest.name, some dsnap, dlast⟩ with
            | none => ([⟨source.name, dest.name, none, dsnap⟩], false)
            | some _ =>
              ([⟨source.name, dest.name, none, dsnap⟩,
                ⟨source.name, dest.name, some dsnap, dlast⟩],
                exec ⟨source.name, dest.name, some dsnap, dlast⟩)
        else ([⟨source.name, dest.name, none, dsnap⟩], false)

/-- The three stages of the `Zfs::do_clone` pipeline, named as in the
source: `sender` is `zfs send` (extractor), `pv` the progress monitor,
`receiver` is `zfs receive` (ingester). -/
inductive Stage where
  | sender
  | pv
  | receiver
deriving DecidableEq

/-- A process event of the `do_clone` pipeline: a stage being spawned, or
being awaited (`wait`). -/
inductive Ev where
  | spawn (s : Stage)
  | wait (s : Stage)
deriving DecidableEq

/-- Embeds `Zfs::do_clone` as an event trace: spawn `zfs send`, then `pv`, then
`zfs receive` (each `spawn()?` may fail, aborting), then wait on each in the
same order, returning an error at the first non-zero exit.  `spawnOk s`
tells whether spawning stage `s` succeeds; `exitOk s` whether the awaited
stage `s` exited successfully.  Returns the event trace and `true` for
`Ok(())`. -/
def do_clone (spawnOk exitOk : Stage → Bool) : List Ev × Bool :=
  if !spawnOk .sender then ([.spawn .sender], false)
  else if !spawnOk .pv then ([.spawn .sender, .spawn .pv], false)
  else if !spawnOk .receiver then
    ([.spawn .sender, .spawn .pv, .spawn .receiver], false)
  else if !exitOk .sender then
    ([.spawn .sender, .spawn .pv, .spawn .receiver, .wait .sender], false)
  else if !exitOk .pv then
    ([.spawn .sender, .spawn .pv, .spawn .receiver, .wait .sender, .wait .pv], false)
  else
    ([.spawn .sender, .spawn .pv, .spawn .receiver,
      .wait .sender, .wait .pv, .wait .receiver], exitOk .receiver)

/-- The clock reading used by `Zfs::snap_name` (`Local::now()`), reduced to
the five fields the format string consumes. -/
structure LocalTime where
  year : Nat
  month : Nat
  day : Nat
  hour : Nat
  minute : Nat
deriving DecidableEq

/-- Rust's `{:0w}` format: decimal digits, left-padded with zeros to at
least width `w` (never truncated). -/
def pad0 (w n : Nat) : Str :=
  List.replicate (w - (Nat.toDigits 10 n).length) '0' ++ Nat.toDigits 10 n

/-- Embeds `Zfs::snap_name`: `format!("{}{:04}-{:04}{:02}{:02}{:02}{:02}", prefix,
index, year, month, day, hour, minute)`. -/
def snap_name (z : Zfs) (now : LocalTime) (index : Nat) : Str :=
  z.pfx ++ pad0 4 index ++ '-' :: (pad0 4 now.year ++ pad0 2 now.month ++
    pad0 2 now.day ++ pad0 2 now.hour ++ pad0 2 now.minute)

/-- Embeds `Zfs::take_snapshot`: print `Make snapshot: <fs@name>` and run
`zfs snapshot -r <fs@name>`.  The source function has no pretend/dry-run
parameter: the `zfs snapshot` command is issued on every invocation. -/
def take_snapshot (z : Zfs) (now : LocalTime) (fs : Str) (index : Nat) : List PEv :=
  [PEv.print ("Make snapshot: ".data ++ (fs ++ '@' :: snap_name z now index)),
   PEv.run "zfs".data ["snapshot".data, "-r".data, fs ++ '@' :: snap_name z now index]]

/-- Rust's `str::splitn(2, sep)` helper: the text before the first `sep`,
and — when `sep` occurs — the whole remainder after it. -/
def break1 (sep : Char) : Str → Str × Option Str
  | [] => ([], none)
  | c :: rest =>
    if c = sep then ([], some rest)
    else
      ((break1 sep rest).1.cons c, (break1 sep rest).2)

/-- Embeds `str::splitn(2, sep)`: one field when `sep` is absent, two otherwise. -/
def splitn2 (sep : Char) (s : Str) : List Str :=
  match break1 sep s with
  | (fst, none) => [fst]
  | (fst, some tail) => [fst, tail]

/-- One parsed listing line of `Zfs::new`: a volume line (no `@` in the
first field) or a snapshot line. -/
inductive Entry where
  | vol (name mount : Str)
  | snap (name sname : Str)
deriving DecidableEq

/-- The per-line parsing of `Zfs::new`: split the line at the first tab
(fatal error unless that yields two fields), then split the first field at
the first `@`; one piece makes a volume entry, two make a snapshot entry
(the catch-all arm is the source's `panic!("Unexpected zfs output")`,
unreachable because `splitn2` yields one or two pieces). -/
def parse_line (line : Str) : Except Str Entry :=
  match splitn2 '\t' line with
  | [f0, f1] =>
    (match splitn2 '@' f0 with
     | [v] => .ok (.vol v f1)
     | [v, s] => .ok (.snap v s)
     | _ => .error "Unexpected zfs output".data)
  | _ => .error ("zfs line does not have two fields: ".data ++ line)

/-- Embeds `SnapBuilder::push_volume`: start a new filesystem with an empty
snapshot list at the end of the work list. -/
def push_volume (work : List Filesystem) (name mount : Str) : List Filesystem :=
  work ++ [⟨name, [], mount⟩]

/-- Embeds `SnapBuilder::push_snap`: append the snapshot to the most recently
started filesystem; `none` models the source's two panics (snapshot before
any volume, or name not matching the current volume). -/
def push_snap (work : List Filesystem) (name sname : Str) : Option (List Filesystem) :=
  match work.getLast? with
  | none => none
  | some set =>
    if name ≠ set.name then none
    else some (work.dropLast ++ [⟨set.name, set.snaps ++ [sname], set.mount⟩])

/-- The builder loop of `Zfs::new` over already-parsed entries: push each
volume/snapshot in order, aborting at the first `push_snap` violation. -/
def run_entries (work : List Filesystem) : List Entry → Option (List Filesystem)
  | [] => some work
  | .vol n m :: rest => run_entries (push_volume work n m) rest
  | .snap n s :: rest =>
    match push_snap work n s with
    | none => none
    | some w => run_entries w rest

/-- The full line loop of `Zfs::new`: parse each line and feed the builder,
with parse errors and builder panics both fatal. -/
def build_go (work : List Filesystem) : List Str → Except Str (List Filesystem)
  | [] => .ok work
  | line :: rest =>
    match parse_line line with
    | .error e => .error e
    | .ok (.vol n m) => build_go (push_volume work n m) rest
    | .ok (.snap n s) =>
      match push_snap work n s with
      | none => .error "panic: snapshot ordering violated".data
      | some w => build_go w rest

/-- Modelled from the spec (§4.1, §8): the intended grouping of a parsed
entry list — a leading snapshot entry is fatal; each volume entry starts a
filesystem, which collects exactly the immediately following snapshot
entries, all of which must carry the volume's own name; order is
preserved.  `acc` holds the snapshots collected so far for the currently
open volume `n`. -/
def specGroupIn (n m : Str) : List Str → List Entry → Option (List Filesystem)
  | acc, [] => some [⟨n, acc, m⟩]
  | acc, .snap n' s :: rest =>
    if n' = n then specGroupIn n m (acc ++ [s]) rest else none
  | acc, .vol n' m' :: rest =>
    (specGroupIn n' m' [] rest).map (fun out => ⟨n, acc, m⟩ :: out)

/-- Modelled from the spec (§4.1, §8): top level of the intended grouping. -/
def specGroup : List Entry → Option (List Filesystem)
  | [] => some []
  | .snap _ _ :: _ => none
  | .vol n m :: rest => specGroupIn n m [] rest

/-- Plain full split on a separator — the ordinary reading of
"tab-separated fields" used to state C7 (note `str::split`, unlike
`splitn(2, ..)`, would produce this). -/
def splitAll (sep : Char) : Str → List Str
  | [] => [[]]
  | c :: rest =>
    if c = sep then [] :: splitAll sep rest
    else
      match splitAll sep rest with
      | [] => [[c]]
      | f :: fs => (c :: f) :: fs

/-! ## Proofs -/

lemma mem_insertPop {x b : Nat} {pops : List Nat} :
    x ∈ insertPop b pops ↔ x = b ∨ x ∈ pops := by
  unfold insertPop
  split
  · constructor
    · exact fun h => Or.inr h
    · rintro (rfl | h) <;> assumption
  · simp [List.mem_cons]

lemma prune_loop_past_keep (fs : Str) (keep : Nat) :
    ∀ (l : List (Str × Nat)) (index : Nat) (pops : List Nat), keep ≤ index →
      prune_loop fs keep index pops l = scanP fs pops l := by
  intro l
  induction l with
  | nil => intro index pops h; rfl
  | cons p rest ih =>
    intro index pops h
    obtain ⟨name, num⟩ := p
    rw [prune_loop, scanP, if_neg (by omega)]
    by_cases hbc : count_ones num ∈ pops <;>
      simp [hbc, ih (index + 1) _ (by omega)]

lemma prune_loop_drop (fs : Str) (keep : Nat) :
    ∀ (l : List (Str × Nat)) (index : Nat) (pops : List Nat), index ≤ keep →
      prune_loop fs keep index pops l = scanP fs pops (l.drop (keep - index)) := by
  intro l
  induction l with
  | nil => intro index pops h; simp [prune_loop, scanP]
  | cons p rest ih =>
    intro index pops h
    obtain ⟨name, num⟩ := p
    by_cases hlt : index < keep
    · rw [prune_loop, if_pos hlt, ih (index + 1) _ (by omega)]
      have hd : keep - index = (keep - (index + 1)) + 1 := by omega
      rw [hd, List.drop_succ_cons]
    · have hz : keep - index = 0 := by omega
      rw [hz, List.drop_zero]
      exact prune_loop_past_keep fs keep _ index pops (by omega)

lemma seenCond_cons (pops : List Nat) (c : Str × Nat) (rest : List (Str × Nat)) (j : Nat) :
    seenCond pops (c :: rest) (j + 1) = seenCond (insertPop (count_ones c.2) pops) rest j := by
  have hmem : (count_ones (rest.getD j ([], 0)).2 ∈ insertPop (count_ones c.2) pops) ↔
      (count_ones (rest.getD j ([], 0)).2 = count_ones c.2 ∨
        count_ones (rest.getD j ([], 0)).2 ∈ pops) := mem_insertPop
  unfold seenCond popSeenBefore
  rw [List.range_succ_eq_map, List.any_cons, List.any_map]
  simp only [Function.comp_def, List.getD_cons_zero, List.getD_cons_succ]
  rw [Bool.eq_iff_iff]
  simp only [Bool.or_eq_true, decide_eq_true_eq, List.any_eq_true, List.mem_range]
  constructor
  · rintro (h | h | ⟨k, hk, he⟩)
    · exact Or.inl (hmem.mpr (Or.inr h))
    · exact Or.inl (hmem.mpr (Or.inl h.symm))
    · exact Or.inr ⟨k, hk, he⟩
  · rintro (h | ⟨k, hk, he⟩)
    · rcases hmem.mp h with h' | h'
      · exact Or.inr (Or.inl h'.symm)
      · exact Or.inl h'
    · exact Or.inr (Or.inr ⟨k, hk, he⟩)

lemma scanP_eq_filter (fs : Str) :
    ∀ (cs : List (Str × Nat)) (pops : List Nat),
      scanP fs pops cs =
        ((List.range cs.length).filter (seenCond pops cs)).map
          (fun i => fs ++ '@' :: (cs.getD i ([], 0)).1) := by
  intro cs
  induction cs with
  | nil => intro pops; rfl
  | cons c rest ih =>
    intro pops
    obtain ⟨name, num⟩ := c
    rw [scanP, List.length_cons, List.range_succ_eq_map, List.filter_cons]
    have hc0 : seenCond pops ((name, num) :: rest) 0 =
        decide (count_ones num ∈ pops) := by
      unfold seenCond popSeenBefore
      simp
    have htail :
        (((List.range rest.length).map Nat.succ).filter
            (seenCond pops ((name, num) :: rest))).map
          (fun i => fs ++ '@' :: (((name, num) :: rest).getD i ([], 0)).1) =
        ((List.range rest.length).filter
            (seenCond (insertPop (count_ones num) pops) rest)).map
          (fun i => fs ++ '@' :: (rest.getD i ([], 0)).1) := by
      rw [List.filter_map, List.map_map]
      have hpred : ((List.range rest.length).filter
            ((seenCond pops ((name, num) :: rest)) ∘ Nat.succ)) =
          ((List.range rest.length).filter
            (seenCond (insertPop (count_ones num) pops) rest)) := by
        apply List.filter_congr
        intro j hj
        exact seenCond_cons pops (name, num) rest j
      rw [hpred]
      apply List.map_congr_left
      intro j hj
      simp [Function.comp, List.getD_cons_succ]
    rw [hc0]
    by_cases hmem : count_ones num ∈ pops
    · rw [if_pos hmem, if_pos (decide_eq_true hmem), List.map_cons, htail, ih]
      simp
    · rw [if_neg hmem, if_neg (by simpa using hmem), htail, ih]

/-- Lemma: `claimPruned` is the candidate scan started with an empty seen-set. -/
lemma claimPruned_eq_scanP (fs : Str) (cs : List (Str × Nat)) :
    claimPruned fs cs = scanP fs [] cs := by
  rw [scanP_eq_filter, claimPruned]
  have hf : (List.range cs.length).filter (seenCond [] cs) =
      (List.range cs.length).filter (popSeenBefore cs) := by
    apply List.filter_congr
    intro i hi
    unfold seenCond
    simp
  rw [hf]

/-- C1: the retention decision of `Zfs::prune` considers only snapshots whose
names match the naming pattern, unconditionally retains the newest `keep` of
them, and, scanning the remaining candidates newest-to-oldest, marks a
candidate for deletion exactly when the population count of its numeric index
has already been seen at an earlier (newer) candidate position; in
particular, with `keep = 2` and indices `[0,…,7]` oldest-to-newest, the
pruned set is exactly the snapshots with indices 3, 2 and 1 (listed
oldest-first by the engine).  `Zfs::prune` itself runs this algorithm at
`keep = PRUNE_KEEP`. -/
theorem prune_retention_spec :
    (∀ (pfx fs_name : Str) (keep : Nat) (snaps : List Str),
        prune_candidates pfx fs_name keep snaps =
          (claimPruned fs_name (claimCands pfx keep snaps)).reverse) ∧
    prune_candidates "caz".data "tank".data 2
        (["caz0000-1", "caz0001-1", "caz0002-1", "caz0003-1", "caz0004-1",
          "caz0005-1", "caz0006-1", "caz0007-1"].map String.data) =
      ["tank@caz0001-1".data, "tank@caz0002-1".data, "tank@caz0003-1".data] := by
  constructor
  · intro pfx fs_name keep snaps
    rw [prune_candidates, claimPruned_eq_scanP,
      prune_loop_drop fs_name keep _ 0 [] (Nat.zero_le _), Nat.sub_zero]
    rfl
  · decide

lemma hasLit_iff : ∀ p s : Str, hasLit p s = true ↔ ∃ t, s = p ++ t := by
  intro p
  induction p with
  | nil =>
    intro s
    simp [hasLit]
  | cons p ps ih =>
    intro s
    cases s with
    | nil => simp [hasLit]
    | cons c cs =>
      rw [hasLit, Bool.and_eq_true, beq_iff_eq, ih]
      constructor
      · rintro ⟨rfl, t, rfl⟩
        exact ⟨t, rfl⟩
      · rintro ⟨t, ht⟩
        rw [List.cons_append] at ht
        injection ht with h1 h2
        exact ⟨h1.symm, t, h2⟩

lemma foldl_next_step (pfx : Str) :
    ∀ (l : List Str) (acc : Nat),
      l.foldl (next_step pfx) acc = (l.filterMap (snap_number pfx)).foldl bumpIdx acc := by
  intro l
  induction l with
  | nil => intro acc; rfl
  | cons sn rest ih =>
    intro acc
    rw [List.foldl_cons, List.filterMap_cons]
    cases h : snap_number pfx sn with
    | none => simp only [h, ih, next_step]
    | some num => simp only [h, ih, next_step, List.foldl_cons, bumpIdx]

lemma foldl_bumpIdx_acc_le : ∀ (l : List Nat) (acc : Nat), acc ≤ l.foldl bumpIdx acc := by
  intro l
  induction l with
  | nil => intro acc; exact Nat.le_refl _
  | cons n rest ih =>
    intro acc
    refine Nat.le_trans ?_ (ih (bumpIdx acc n))
    unfold bumpIdx
    split <;> omega

lemma foldl_bumpIdx_lt : ∀ (l : List Nat) (acc : Nat), ∀ i ∈ l, i < l.foldl bumpIdx acc := by
  intro l
  induction l with
  | nil => intro acc i hi; cases hi
  | cons n rest ih =>
    intro acc i hi
    rw [List.foldl_cons]
    rcases List.mem_cons.mp hi with rfl | hi
    · have hb : i < bumpIdx acc i := by unfold bumpIdx; split <;> omega
      exact Nat.lt_of_lt_of_le hb (foldl_bumpIdx_acc_le rest _)
    · exact ih _ i hi

lemma foldl_bumpIdx_le : ∀ (l : List Nat) (acc b : Nat),
    acc ≤ b → (∀ i ∈ l, i < b) → l.foldl bumpIdx acc ≤ b := by
  intro l
  induction l with
  | nil => intro acc b h _; exact h
  | cons n rest ih =>
    intro acc b hab hib
    rw [List.foldl_cons]
    refine ih _ b ?_ (fun i hi => hib i (List.mem_cons_of_mem _ hi))
    have := hib n (List.mem_cons_self _ _)
    unfold bumpIdx
    split <;> omega

lemma next_under_eq_flat (z : Zfs) (under : Str) :
    next_under z under = (subtreeIndices z under).foldl bumpIdx 0 := by
  unfold next_under subtreeIndices
  have key : ∀ (fss : List Filesystem) (acc : Nat),
      fss.foldl (fun next fs => fs.snaps.foldl (next_step z.pfx) next) acc =
        (fss.flatMap (fun fs => fs.snaps.filterMap (snap_number z.pfx))).foldl bumpIdx acc := by
    intro fss
    induction fss with
    | nil => intro acc; rfl
    | cons fs rest ih =>
      intro acc
      rw [List.foldl_cons, List.flatMap_cons, List.foldl_append, foldl_next_step, ih]
  exact key _ 0

/-- C2: `Zfs::filtered` selects exactly the subtree of `under` (equal name,
or name of the form `under ++ "/" ++ …`), and over that subtree
`Zfs::next_under` returns the smallest unsigned integer strictly greater
than every index occurring in pattern-matching snapshot names — 0 when no
matching snapshot exists; over matching indices `{0,1,2}` it returns 3 and
over `{5}` alone it returns 6. -/
theorem next_under_spec :
    (∀ (z : Zfs) (under : Str) (fs : Filesystem),
        fs ∈ filtered z under ↔
          fs ∈ z.filesystems ∧ (fs.name = under ∨ ∃ t, fs.name = under ++ '/' :: t)) ∧
    (∀ (z : Zfs) (under : Str), ∀ i ∈ subtreeIndices z under, i < next_under z under) ∧
    (∀ (z : Zfs) (under : Str) (b : Nat),
        (∀ i ∈ subtreeIndices z under, i < b) → next_under z under ≤ b) ∧
    next_under ⟨"caz".data,
        [⟨"tank".data, ["caz0000-1".data, "caz0001-1".data, "caz0002-1".data],
          "/tank".data⟩]⟩ "tank".data = 3 ∧
    next_under ⟨"caz".data, [⟨"tank".data, ["caz0005-1".data], "/tank".data⟩]⟩
      "tank".data = 6 := by
  refine ⟨?_, ?_, ?_, by decide, by decide⟩
  · intro z under fs
    simp only [filtered, List.mem_filter, Bool.or_eq_true, beq_iff_eq, hasLit_iff]
    constructor
    · rintro ⟨h1, h2 | ⟨t, ht⟩⟩
      · exact ⟨h1, Or.inl h2⟩
      · exact ⟨h1, Or.inr ⟨t, by simpa [List.append_assoc] using ht⟩⟩
    · rintro ⟨h1, h2 | ⟨t, ht⟩⟩
      · exact ⟨h1, Or.inl h2⟩
      · exact ⟨h1, Or.inr ⟨t, by simpa [List.append_assoc] using ht⟩⟩
  · intro z under i hi
    rw [next_under_eq_flat]
    exact foldl_bumpIdx_lt _ 0 i hi
  · intro z under b hb
    rw [next_under_eq_flat]
    exact foldl_bumpIdx_le _ 0 b (Nat.zero_le _) hb

/-- Witness for `next_under_spec`: applying the minimality conjunct at a
concrete one-filesystem inventory whose only matching index is 5 with bound
6 shows `next_under ≤ 6` there. -/
theorem next_under_spec_witness :
    next_under ⟨"caz".data, [⟨"tank".data, ["caz0005-1".data], "/tank".data⟩]⟩
      "tank".data ≤ 6 :=
  next_under_spec.2.2.1
    ⟨"caz".data, [⟨"tank".data, ["caz0005-1".data], "/tank".data⟩]⟩
    "tank".data 6 (by decide)

/-- C3: when the destination already has snapshots, `Zfs::clone_one` fails
with no transfer if the destination's newest snapshot is absent from the
source history; performs no transfer and succeeds if the source's newest
snapshot equals the destination's newest (so a re-run against an unchanged
source does zero transfers); and otherwise starts exactly one incremental
transfer from the destination's newest snapshot to the source's newest. -/
theorem clone_one_existing_spec :
    ∀ (est : Xfer → Option Nat) (exec : Xfer → Bool) (source dest : Filesystem)
      (ssnap : Str), dest.snaps.getLast? = some ssnap →
      ((ssnap ∉ source.snaps → clone_one est exec source dest = ([], false)) ∧
       (source.snaps.getLast? = some ssnap →
          clone_one est exec source dest = ([], true)) ∧
       (∀ (dsnap : Str) (sz : Nat), source.snaps.getLast? = some dsnap →
          dsnap ≠ ssnap → ssnap ∈ source.snaps →
          est ⟨source.name, dest.name, some ssnap, dsnap⟩ = some sz →
          clone_one est exec source dest =
            ([⟨source.name, dest.name, some ssnap, dsnap⟩],
              exec ⟨source.name, dest.name, some ssnap, dsnap⟩))) := by
  intro est exec source dest ssnap hd
  refine ⟨?_, ?_, ?_⟩
  · intro hnotmem
    simp [clone_one, hd]
    exact fun hmem => absurd hmem hnotmem
  · intro hs
    simp [clone_one, hd, hs]
    exact List.mem_of_mem_getLast? hs
  · intro dsnap sz hs hne hmem hest
    simp [clone_one, hd, hs, hne, hmem, hest]

/-- Witness for `clone_one_existing_spec`: at a concrete pair whose
destination newest snapshot `"a"` is also the source's newest, the theorem's
in-sync conjunct yields success with an empty transfer list. -/
theorem clone_one_existing_witness :
    clone_one (fun _ => some 0) (fun _ => true)
      ⟨"s".data, ["a".data], "/s".data⟩ ⟨"d".data, ["a".data], "/d".data⟩ =
      ([], true) :=
  (clone_one_existing_spec (fun _ => some 0) (fun _ => true)
    ⟨"s".data, ["a".data], "/s".data⟩ ⟨"d".data, ["a".data], "/d".data⟩
    "a".data (by decide)).2.1 (by decide)

/-- C4: when the destination has no snapshots and the source has some,
`Zfs::clone_one` starts a full transfer of the source's oldest snapshot and,
only if that transfer succeeds, exactly one further incremental transfer
from the oldest to the newest source snapshot; on failure of the first
transfer the second is never started. -/
theorem clone_one_seed_spec :
    ∀ (est : Xfer → Option Nat) (exec : Xfer → Bool) (source dest : Filesystem)
      (o n : Str) (sz1 sz2 : Nat),
      dest.snaps = [] →
      source.snaps.head? = some o →
      source.snaps.getLast? = some n →
      est ⟨source.name, dest.name, none, o⟩ = some sz1 →
      est ⟨source.name, dest.name, some o, n⟩ = some sz2 →
      ((exec ⟨source.name, dest.name, none, o⟩ = true →
          clone_one est exec source dest =
            ([⟨source.name, dest.name, none, o⟩, ⟨source.name, dest.name, some o, n⟩],
              exec ⟨source.name, dest.name, some o, n⟩)) ∧
       (exec ⟨source.name, dest.name, none, o⟩ = false →
          clone_one est exec source dest =
            ([⟨source.name, dest.name, none, o⟩], false))) := by
  intro est exec source dest o n sz1 sz2 hd ho hn hest1 hest2
  have hdl : dest.snaps.getLast? = none := by rw [hd]; rfl
  constructor
  · intro hx1
    simp [clone_one, hdl, ho, hn, hest1, hest2, hx1]
  · intro hx1
    simp [clone_one, hdl, ho, hn, hest1, hest2, hx1]

/-- Witness for `clone_one_seed_spec`: at a concrete source with snapshots
`["a", "b"]`, an empty destination and an all-succeeding executor, the
theorem yields the full-then-incremental transfer pair. -/
theorem clone_one_seed_witness :
    clone_one (fun _ => some 0) (fun _ => true)
      ⟨"s".data, ["a".data, "b".data], "/s".data⟩ ⟨"d".data, [], "/d".data⟩ =
      ([⟨"s".data, "d".data, none, "a".data⟩, ⟨"s".data, "d".data, some "a".data, "b".data⟩],
        true) :=
  (clone_one_seed_spec (fun _ => some 0) (fun _ => true)
    ⟨"s".data, ["a".data, "b".data], "/s".data⟩ ⟨"d".data, [], "/d".data⟩
    "a".data "b".data 0 0 (by decide) (by decide) (by decide) (by decide)
    (by decide)).1 (by decide)

/-- C5: in the `Zfs::do_clone` pipeline (assuming the three spawns
themselves succeed) all three stages are spawned, in order
sender/pv/receiver, before any is awaited; the stages are then awaited in
that same order (the wait events form a prefix of
`[wait sender, wait pv, wait receiver]`, cut at the first failure); and the
transfer is reported successful exactly when all three stages exit
successfully — in particular it is reported failed when only the receiver
(ingester) fails. -/
theorem do_clone_pipeline_spec :
    ∀ (spawnOk exitOk : Stage → Bool), (∀ s, spawnOk s = true) →
      (((do_clone spawnOk exitOk).2 = true ↔
          (exitOk .sender = true ∧ exitOk .pv = true ∧ exitOk .receiver = true)) ∧
       (∃ w, (do_clone spawnOk exitOk).1 =
            [.spawn .sender, .spawn .pv, .spawn .receiver] ++ w ∧
          w <+: [Ev.wait .sender, Ev.wait .pv, Ev.wait .receiver])) := by
  intro spawnOk exitOk hsp
  rw [do_clone, hsp .sender, hsp .pv, hsp .receiver]
  rcases h1 : exitOk .sender with _ | _
  · simp [h1]
  · rcases h2 : exitOk .pv with _ | _
    · simp [h1, h2]
    · rcases h3 : exitOk .receiver with _ | _ <;> simp [h1, h2, h3]

/-- Witness for `do_clone_pipeline_spec`: with all spawns succeeding and an
exit oracle on which only the receiver fails, the success conjunct applies
(and shows the transfer is reported failed). -/
theorem do_clone_pipeline_witness :
    (do_clone (fun _ => true)
        (fun s => match s with | .receiver => false | _ => true)).2 = true ↔
      ((fun s => match s with | .receiver => false | _ => true) Stage.sender = true ∧
       (fun s => match s with | .receiver => false | _ => true) Stage.pv = true ∧
       (fun s => match s with | .receiver => false | _ => true) Stage.receiver = true) :=
  (do_clone_pipeline_spec (fun _ => true)
    (fun s => match s with | .receiver => false | _ => true) (fun s => rfl)).1

/-- C6 counterexample: snapshot creation has no dry-run mode.
`Zfs::take_snapshot` takes no pretend flag (see its embedded signature) and
issues the mutating `zfs snapshot -r` command on every invocation — here
evaluated at a concrete inventory, clock and index, where its trace contains
the `zfs snapshot` invocation.  This refutes the claim that all three
destructive call sites (snapshot creation, pruning, cloning) offer a
dry-run/pretend mode. -/
theorem take_snapshot_always_runs_cex :
    take_snapshot ⟨"caz".data, []⟩ ⟨2020, 1, 2, 3, 4⟩ "tank".data 1 =
      [PEv.print "Make snapshot: tank@caz0001-202001020304".data,
       PEv.run "zfs".data
         ["snapshot".data, "-r".data, "tank@caz0001-202001020304".data]] := by
  decide

/-- C6 amended: of the three destructive call sites in `zfs.rs`, only
pruning offers the caller-visible dry-run split: `Zfs::prune` with `really`
unset prints `would prune: <fs@snap>` for every deletion candidate and
issues no command at all (in particular no `zfs destroy`), whereas
`Zfs::take_snapshot` (whose embedded signature has no pretend flag, like
`Zfs::clone`) issues the mutating `zfs snapshot -r` command on every
invocation. -/
theorem prune_dry_run_spec :
    (∀ (z : Zfs) (fs_name : Str) (fs : Filesystem),
      z.filesystems.find? (fun f => f.name == fs_name) = some fs →
      prune z fs_name false =
        .ok ((prune_candidates z.pfx fs_name PRUNE_KEEP fs.snaps).map
          (fun n => PEv.print ("would ".data ++ "prune: ".data ++ n)))) ∧
    (∀ (z : Zfs) (now : LocalTime) (fs : Str) (index : Nat),
      PEv.run "zfs".data ["snapshot".data, "-r".data, fs ++ '@' :: snap_name z now index] ∈
        take_snapshot z now fs index) := by
  constructor
  · intro z fs_name fs hf
    have h1 : prune z fs_name false =
        .ok ((prune_candidates z.pfx fs_name PRUNE_KEEP fs.snaps).flatMap
          (fun prune_name =>
            PEv.print ((if false then [] else "would ".data) ++ "prune: ".data ++ prune_name) ::
              (if false then [PEv.run "zfs".data ["destroy".data, prune_name]] else []))) := by
      rw [prune, hf]
    rw [h1]
    congr 1
    induction prune_candidates z.pfx fs_name PRUNE_KEEP fs.snaps with
    | nil => rfl
    | cons n rest ih =>
      rw [List.flatMap_cons, List.map_cons, ih]
      rfl
  · intro z now fs index
    rw [take_snapshot]
    exact List.mem_cons_of_mem _ (List.mem_cons_self _ _)

/-- Witness for `prune_dry_run_spec`, applied at a one-filesystem inventory
with twelve matching snapshots (one deletion candidate). -/
theorem prune_dry_run_witness :
    prune ⟨"caz".data,
        [⟨"tank".data,
          ["caz0001-1".data, "caz0002-1".data, "caz0003-1".data, "caz0004-1".data,
           "caz0005-1".data, "caz0006-1".data, "caz0007-1".data, "caz0008-1".data,
           "caz0009-1".data, "caz0010-1".data, "caz0011-1".data, "caz0012-1".data],
          "/t".data⟩]⟩ "tank".data false =
      .ok ((prune_candidates "caz".data "tank".data PRUNE_KEEP
          ["caz0001-1".data, "caz0002-1".data, "caz0003-1".data, "caz0004-1".data,
           "caz0005-1".data, "caz0006-1".data, "caz0007-1".data, "caz0008-1".data,
           "caz0009-1".data, "caz0010-1".data, "caz0011-1".data, "caz0012-1".data]).map
        (fun n => PEv.print ("would ".data ++ "prune: ".data ++ n))) :=
  prune_dry_run_spec.1
    ⟨"caz".data,
      [⟨"tank".data,
        ["caz0001-1".data, "caz0002-1".data, "caz0003-1".data, "caz0004-1".data,
         "caz0005-1".data, "caz0006-1".data, "caz0007-1".data, "caz0008-1".data,
         "caz0009-1".data, "caz0010-1".data, "caz0011-1".data, "caz0012-1".data],
        "/t".data⟩]⟩ "tank".data
    ⟨"tank".data,
      ["caz0001-1".data, "caz0002-1".data, "caz0003-1".data, "caz0004-1".data,
       "caz0005-1".data, "caz0006-1".data, "caz0007-1".data, "caz0008-1".data,
       "caz0009-1".data, "caz0010-1".data, "caz0011-1".data, "caz0012-1".data],
      "/t".data⟩ (by decide)

lemma break1_none_iff (sep : Char) : ∀ s : Str, (break1 sep s).2 = none ↔ sep ∉ s := by
  intro s
  induction s with
  | nil => simp [break1]
  | cons c rest ih =>
    rw [break1]
    by_cases hc : c = sep
    · subst hc
      simp
    · simp only [if_neg hc, ih, List.mem_cons]
      constructor
      · intro h
        rintro (rfl | hm)
        · exact hc rfl
        · exact h hm
      · intro h hm
        exact h (Or.inr hm)

lemma splitn2_shape (sep : Char) (s : Str) :
    (∃ f, splitn2 sep s = [f]) ∨ ∃ f t, splitn2 sep s = [f, t] := by
  rw [splitn2]
  rcases hb : break1 sep s with ⟨f, o⟩
  cases o with
  | none => exact Or.inl ⟨f, rfl⟩
  | some t => exact Or.inr ⟨f, t, rfl⟩

/-- C7 counterexample: the line `"a\tb\tc"` has three tab-separated fields,
yet `Zfs::new`'s line parsing accepts it (as a volume named `a` whose
mountpoint is the remainder `b\tc`), because the source splits with
`splitn(2, '\t')`, which only requires at least one tab.  This refutes the
claim that every line not consisting of exactly two tab-separated fields is
a fatal parse error. -/
theorem parse_line_three_fields_cex :
    (splitAll '\t' "a\tb\tc".data).length = 3 ∧
    parse_line "a\tb\tc".data = .ok (.vol "a".data "b\tc".data) :=
  ⟨by decide, by rfl⟩

/-- C7 amended: `Zfs::new` fails on a listing line exactly when the line
contains no tab character (i.e. fewer than two tab-separated fields), and
then no filesystem or snapshot is produced — the whole construction aborts
with the parse error.  A line with one or more tabs is always accepted,
everything after the first tab (however many further tabs it contains)
becoming the mountpoint field. -/
theorem parse_line_tab_spec :
    ∀ (line : Str) (work : List Filesystem) (rest : List Str),
      (('\t' ∈ line) → ∃ e, parse_line line = .ok e) ∧
      (('\t' ∉ line) →
        parse_line line = .error ("zfs line does not have two fields: ".data ++ line) ∧
        build_go work (line :: rest) =
          .error ("zfs line does not have two fields: ".data ++ line)) := by
  intro line work rest
  constructor
  · intro htab
    obtain ⟨f, t, hb⟩ : ∃ f t, break1 '\t' line = (f, some t) := by
      rcases hb : break1 '\t' line with ⟨f, o⟩
      cases o with
      | none =>
        exact absurd ((break1_none_iff '\t' line).mp (by rw [hb])) (by simpa using htab)
      | some t => exact ⟨f, t, rfl⟩
    have hsp : splitn2 '\t' line = [f, t] := by rw [splitn2, hb]
    have hred : parse_line line =
        (match splitn2 '@' f with
         | [v] => .ok (.vol v t)
         | [v, s] => .ok (.snap v s)
         | _ => .error "Unexpected zfs output".data) := by
      rw [parse_line, hsp]
    rcases splitn2_shape '@' f with ⟨v, hv⟩ | ⟨v, s, hv⟩ <;> rw [hred, hv]
    · exact ⟨.vol v t, rfl⟩
    · exact ⟨.snap v s, rfl⟩
  · intro htab
    obtain ⟨f, hb⟩ : ∃ f, break1 '\t' line = (f, none) := by
      rcases hb : break1 '\t' line with ⟨f, o⟩
      cases o with
      | none => exact ⟨f, rfl⟩
      | some t =>
        have : (break1 '\t' line).2 = none := (break1_none_iff '\t' line).mpr htab
        rw [hb] at this
        cases this
    have hsp : splitn2 '\t' line = [f] := by rw [splitn2, hb]
    have hpl : parse_line line =
        .error ("zfs line does not have two fields: ".data ++ line) := by
      rw [parse_line, hsp]
    exact ⟨hpl, by rw [build_go, hpl]⟩

/-- Witness for `parse_line_tab_spec`: at the tab-containing line `"a\tb"`
the acceptance conjunct yields a parsed entry, and at the tab-free line
`"abc"` the rejection conjunct yields the fatal parse error for the whole
construction. -/
theorem parse_line_tab_witness :
    (∃ e, parse_line "a\tb".data = .ok e) ∧
    (parse_line "abc".data =
        .error ("zfs line does not have two fields: ".data ++ "abc".data) ∧
      build_go [] ["abc".data] =
        .error ("zfs line does not have two fields: ".data ++ "abc".data)) :=
  ⟨(parse_line_tab_spec "a\tb".data [] []).1 (by decide),
   (parse_line_tab_spec "abc".data [] []).2 (by decide)⟩

lemma run_entries_snoc :
    ∀ (es : List Entry) (work : List Filesystem) (n m : Str) (acc : List Str),
      run_entries (work ++ [⟨n, acc, m⟩]) es =
        (specGroupIn n m acc es).map (fun out => work ++ out) := by
  intro es
  induction es with
  | nil => intro work n m acc; rfl
  | cons e rest ih =>
    intro work n m acc
    cases e with
    | vol n' m' =>
      rw [run_entries, push_volume, ih, specGroupIn, Option.map_map]
      cases specGroupIn n' m' [] rest with
      | none => rfl
      | some out => simp
    | snap n' s =>
      rw [run_entries]
      have hps : push_snap (work ++ [⟨n, acc, m⟩]) n' s =
          if n' ≠ n then none else some (work ++ [⟨n, acc ++ [s], m⟩]) := by
        rw [push_snap, List.getLast?_concat, List.dropLast_concat]
      by_cases hne : n' = n
      · subst hne
        rw [hps, if_neg (by simp), specGroupIn, if_pos rfl]
        have : (match some (work ++ [⟨n', acc ++ [s], m⟩]) with
            | none => none
            | some w => run_entries w rest) =
            run_entries (work ++ [⟨n', acc ++ [s], m⟩]) rest := rfl
        rw [this, ih]
      · rw [hps, if_pos hne, specGroupIn, if_neg hne]
        rfl

/-- C8: the builder loop of `Zfs::new` (`SnapBuilder::push_volume` /
`push_snap` over the parsed entry list) coincides with the intended grouping
`specGroup`: a snapshot entry before any volume entry is fatal, each
snapshot is appended to the most recently started filesystem after its
pre-`@` name is checked against that filesystem's name (mismatch fatal), and
the output preserves input order.  The last conjunct states the mismatch
panic at the `push_snap` level directly. -/
theorem builder_grouping_spec :
    (∀ es : List Entry, run_entries [] es = specGroup es) ∧
    (∀ (n s : Str) (es : List Entry), run_entries [] (.snap n s :: es) = none) ∧
    (∀ (work : List Filesystem) (f : Filesystem) (n s : Str),
        work.getLast? = some f → f.name ≠ n → push_snap work n s = none) := by
  refine ⟨?_, ?_, ?_⟩
  · intro es
    cases es with
    | nil => rfl
    | cons e rest =>
      cases e with
      | vol n m =>
        have h0 : run_entries [] (.vol n m :: rest) =
            run_entries ([] ++ [⟨n, [], m⟩]) rest := rfl
        rw [h0, run_entries_snoc, specGroup]
        cases specGroupIn n m [] rest with
        | none => rfl
        | some out => simp
      | snap n s => rfl
  · intro n s es
    rfl
  · intro work f n s hlast hne
    have hns : n ≠ f.name := Ne.symm hne
    simp [push_snap, hlast, hns]

/-- Witness for `builder_grouping_spec`: a snapshot entry whose name `"b"`
differs from the open volume `"a"` makes `push_snap` fail. -/
theorem builder_grouping_witness :
    push_snap [⟨"a".data, [], "/a".data⟩] "b".data "s".data = none :=
  builder_grouping_spec.2.2 [⟨"a".data, [], "/a".data⟩] ⟨"a".data, [], "/a".data⟩
    "b".data "s".data (by rfl) (by decide)

lemma scanP_sublist (fs : Str) : ∀ (cs : List (Str × Nat)) (pops : List Nat),
    (scanP fs pops cs).Sublist (cs.map (fun p => fs ++ '@' :: p.1)) := by
  intro cs
  induction cs with
  | nil => intro pops; exact List.Sublist.refl _
  | cons c rest ih =>
    intro pops
    obtain ⟨name, num⟩ := c
    rw [scanP, List.map_cons]
    by_cases h : count_ones num ∈ pops
    · rw [if_pos h]
      exact List.Sublist.cons₂ _ (ih _)
    · rw [if_neg h]
      exact List.Sublist.cons _ (ih _)

lemma destroy_runs : ∀ l : List Str,
    ((l.flatMap (fun prune_name =>
        PEv.print ((if true then [] else "would ".data) ++ "prune: ".data ++ prune_name) ::
          (if true then [PEv.run "zfs".data ["destroy".data, prune_name]] else []))).filterMap
      (fun e => match e with
        | PEv.run p a => some (p, a)
        | PEv.print _ => none)) =
      l.map (fun n => ("zfs".data, ["destroy".data, n])) := by
  intro l
  induction l with
  | nil => rfl
  | cons n rest ih =>
    rw [List.flatMap_cons, List.filterMap_append, ih]
    rfl

/-- C9: `Zfs::prune` emits its deletion candidates oldest-first — the output
list is the reverse of the newest-to-oldest scan in which the candidates
were identified, and it is a sublist of the (oldest-first) matching snapshot
history — and in execute mode the `zfs destroy` commands are issued in
exactly that oldest-first order. -/
theorem prune_order_spec :
    ∀ (z : Zfs) (fs_name : Str) (fs : Filesystem) (really : Bool) (evs : List PEv),
      z.filesystems.find? (fun f => f.name == fs_name) = some fs →
      prune z fs_name really = .ok evs →
      (prune_candidates z.pfx fs_name PRUNE_KEEP fs.snaps =
          (prune_loop fs_name PRUNE_KEEP 0 [] (prune_pairs z.pfx fs.snaps)).reverse ∧
       (prune_candidates z.pfx fs_name PRUNE_KEEP fs.snaps).Sublist
          (fs.snaps.filterMap (fun sn =>
            (snap_number z.pfx sn).map (fun _ => fs_name ++ '@' :: sn))) ∧
       (really = true →
          evs.filterMap (fun e => match e with
            | PEv.run p a => some (p, a)
            | PEv.print _ => none) =
            (prune_candidates z.pfx fs_name PRUNE_KEEP fs.snaps).map
              (fun n => ("zfs".data, ["destroy".data, n])))) := by
  intro z fs_name fs really evs hf hok
  refine ⟨rfl, ?_, ?_⟩
  · have h1 : prune_candidates z.pfx fs_name PRUNE_KEEP fs.snaps =
        (scanP fs_name [] ((prune_pairs z.pfx fs.snaps).drop PRUNE_KEEP)).reverse := by
      rw [prune_candidates,
        prune_loop_drop fs_name PRUNE_KEEP _ 0 [] (Nat.zero_le _), Nat.sub_zero]
    have h2 : (scanP fs_name [] ((prune_pairs z.pfx fs.snaps).drop PRUNE_KEEP)).Sublist
        ((prune_pairs z.pfx fs.snaps).map (fun p => fs_name ++ '@' :: p.1)) :=
      (scanP_sublist fs_name _ []).trans
        (List.Sublist.map _ (List.drop_sublist _ _))
    have h3 : ((prune_pairs z.pfx fs.snaps).map (fun p => fs_name ++ '@' :: p.1)).reverse =
        fs.snaps.filterMap (fun sn =>
          (snap_number z.pfx sn).map (fun _ => fs_name ++ '@' :: sn)) := by
      rw [prune_pairs, List.map_reverse, List.reverse_reverse, List.map_filterMap]
      congr 1
      funext sn
      cases snap_number z.pfx sn <;> rfl
    rw [h1, ← h3]
    exact List.reverse_sublist.mpr h2
  · intro hre
    subst hre
    have hcomp : prune z fs_name true =
        Except.ok ((prune_candidates z.pfx fs_name PRUNE_KEEP fs.snaps).flatMap
          (fun prune_name =>
            PEv.print ((if true then [] else "would ".data) ++ "prune: ".data ++ prune_name) ::
              (if true then [PEv.run "zfs".data ["destroy".data, prune_name]] else []))) := by
      rw [prune, hf]
    rw [hcomp] at hok
    injection hok with hv
    rw [← hv]
    exact destroy_runs _

/-- Witness for `prune_order_spec`, applied in execute mode at a
one-filesystem inventory with twelve matching snapshots. -/
theorem prune_order_witness :
    (prune_candidates "caz".data "tank".data PRUNE_KEEP
        ["caz0001-1".data, "caz0002-1".data, "caz0003-1".data, "caz0004-1".data,
         "caz0005-1".data, "caz0006-1".data, "caz0007-1".data, "caz0008-1".data,
         "caz0009-1".data, "caz0010-1".data, "caz0011-1".data, "caz0012-1".data]).Sublist
      (["caz0001-1".data, "caz0002-1".data, "caz0003-1".data, "caz0004-1".data,
        "caz0005-1".data, "caz0006-1".data, "caz0007-1".data, "caz0008-1".data,
        "caz0009-1".data, "caz0010-1".data, "caz0011-1".data,
        "caz0012-1".data].filterMap (fun sn =>
          (snap_number "caz".data sn).map (fun _ => "tank".data ++ '@' :: sn))) :=
  (prune_order_spec
    ⟨"caz".data,
      [⟨"tank".data,
        ["caz0001-1".data, "caz0002-1".data, "caz0003-1".data, "caz0004-1".data,
         "caz0005-1".data, "caz0006-1".data, "caz0007-1".data, "caz0008-1".data,
         "caz0009-1".data, "caz0010-1".data, "caz0011-1".data, "caz0012-1".data],
        "/t".data⟩]⟩ "tank".data
    ⟨"tank".data,
      ["caz0001-1".data, "caz0002-1".data, "caz0003-1".data, "caz0004-1".data,
       "caz0005-1".data, "caz0006-1".data, "caz0007-1".data, "caz0008-1".data,
       "caz0009-1".data, "caz0010-1".data, "caz0011-1".data, "caz0012-1".data],
      "/t".data⟩ true
    ((["tank@caz0001-1".data]).flatMap
      (fun prune_name =>
        PEv.print ((if true then [] else "would ".data) ++ "prune: ".data ++ prune_name) ::
          (if true then [PEv.run "zfs".data ["destroy".data, prune_name]] else [])))
    (by rfl) (by rfl)).2.1

/-- C10: the unconditional keep-window of `Zfs::prune` is the fixed
compile-time constant `PRUNE_KEEP = 10`: whenever a filesystem has at most
10 pattern-matching snapshots nothing is pruned (regardless of the `really`
flag — the only caller-supplied parameters are the volume name and that
flag), while a concrete 12-snapshot history does lose a snapshot beyond the
window. -/
theorem prune_keep_window_spec :
    PRUNE_KEEP = 10 ∧
    (∀ (z : Zfs) (fs_name : Str) (fs : Filesystem) (really : Bool),
        z.filesystems.find? (fun f => f.name == fs_name) = some fs →
        (fs.snaps.filterMap (fun sn =>
            (snap_number z.pfx sn).map (fun num => (sn, num)))).length ≤ PRUNE_KEEP →
        prune z fs_name really = .ok []) ∧
    prune ⟨"caz".data,
        [⟨"tank".data,
          ["caz0001-1".data, "caz0002-1".data, "caz0003-1".data, "caz0004-1".data,
           "caz0005-1".data, "caz0006-1".data, "caz0007-1".data, "caz0008-1".data,
           "caz0009-1".data, "caz0010-1".data, "caz0011-1".data, "caz0012-1".data],
          "/t".data⟩]⟩ "tank".data false =
      .ok [PEv.print "would prune: tank@caz0001-1".data] := by
  refine ⟨rfl, ?_, by rfl⟩
  intro z fs_name fs really hf hlen
  have hpairs : (prune_pairs z.pfx fs.snaps).length ≤ PRUNE_KEEP := by
    rw [prune_pairs, List.length_reverse]
    exact hlen
  have hdrop : (prune_pairs z.pfx fs.snaps).drop PRUNE_KEEP = [] :=
    List.drop_eq_nil_of_le hpairs
  have hcand : prune_candidates z.pfx fs_name PRUNE_KEEP fs.snaps = [] := by
    rw [prune_candidates,
      prune_loop_drop fs_name PRUNE_KEEP _ 0 [] (Nat.zero_le _), Nat.sub_zero, hdrop]
    rfl
  have hcomp : prune z fs_name really =
      Except.ok ((prune_candidates z.pfx fs_name PRUNE_KEEP fs.snaps).flatMap
        (fun prune_name =>
          PEv.print ((if really then [] else "would ".data) ++ "prune: ".data ++ prune_name) ::
            (if really then [PEv.run "zfs".data ["destroy".data, prune_name]] else []))) := by
    rw [prune, hf]
  rw [hcomp, hcand]
  rfl

/-- Witness for `prune_keep_window_spec`: with a single matching snapshot
(at most `PRUNE_KEEP` of them) nothing is pruned even in execute mode. -/
theorem prune_keep_window_witness :
    prune ⟨"caz".data, [⟨"tank".data, ["caz0000-1".data], "/t".data⟩]⟩
      "tank".data true = .ok [] :=
  prune_keep_window_spec.2.1
    ⟨"caz".data, [⟨"tank".data, ["caz0000-1".data], "/t".data⟩]⟩ "tank".data
    ⟨"tank".data, ["caz0000-1".data], "/t".data⟩ true (by rfl) (by decide)

end Rack

